import Mathlib

/-!
Verification of the medical report summarizer (src/summarizer.py).

Strings are modelled as lists of unicode scalar values (`List Char`); the
case folding performed by the source (`str.lower`, `re.IGNORECASE`,
SQLite LIKE) is modelled on the ASCII range, which is the range the
source's fixed vocabularies and patterns live in.  Regular expressions of
the source are translated into explicit leftmost-match scanners with the
same backtracking behaviour (all character classes that meet a greedy
quantifier in the source patterns are pairwise disjoint from what follows,
so greedy maximal munch is exact; this is noted at each matcher).
-/

/-- Strings of the model: lists of unicode scalar values. -/
abbrev Str := List Char

/-- Embed a Lean string literal into the model. -/
def lit (s : String) : Str := s.data

/-- ASCII lower-casing of one character, as `str.lower` / `re.IGNORECASE`
act on the ASCII range. -/
def lowC (c : Char) : Char :=
  if 65 ≤ c.toNat ∧ c.toNat ≤ 90 then Char.ofNat (c.toNat + 32) else c

/-- Lower-case a whole string (model of `str.lower` on ASCII). -/
def lowStr (s : Str) : Str := s.map lowC

/-- Decimal digit test, the `\d` class of the source's patterns. -/
def isDigitC (c : Char) : Bool := 48 ≤ c.toNat ∧ c.toNat ≤ 57

/-- ASCII letter test, the `[A-Za-z]` class (also `[A-Z]` under
`re.IGNORECASE`). -/
def isAsciiLetter (c : Char) : Bool :=
  (65 ≤ c.toNat ∧ c.toNat ≤ 90) ∨ (97 ≤ c.toNat ∧ c.toNat ≤ 122)

/-- Whitespace as the `\s` class and `str.strip` see it (ASCII part). -/
def isPyWs (c : Char) : Bool :=
  c = ' ' ∨ c = '\t' ∨ c = '\n' ∨ c = '\r' ∨ c = '\x0b' ∨ c = '\x0c'

/-- The `[:\s]` class used after every label in the source's patterns. -/
def isSepC (c : Char) : Bool := c = ':' ∨ isPyWs c

/-- Character class of the patient-identifier capture `[A-Za-z0-9\-]`. -/
def isIdChar (c : Char) : Bool := isAsciiLetter c ∨ isDigitC c ∨ c = '-'

/-- Boolean test that `n` is a (case-sensitive) prefix of `h`. -/
def startsW : Str → Str → Bool
  | [], _ => true
  | _ :: _, [] => false
  | a :: as, b :: bs => a == b && startsW as bs

/-- Boolean substring containment: `n` occurs contiguously in `h`
(the semantics of Python's `in` on strings). -/
def containsSub (n : Str) : Str → Bool
  | [] => startsW n []
  | c :: hs => startsW n (c :: hs) || containsSub n hs

/-- All suffixes of a list, longest first (the start positions a regex
search tries, left to right). -/
def suffixes : Str → List Str
  | [] => [[]]
  | c :: cs => (c :: cs) :: suffixes cs

/-- Leftmost-match driver of `re.search` / `re.findall`: try the matcher
at every start position, left to right, and return the first success. -/
def scanFirst {α : Type} (f : Str → Option α) : Str → Option α
  | [] => f []
  | c :: ts =>
    match f (c :: ts) with
    | some a => some a
    | none => scanFirst f ts

/-- Consume the literal `w` case-insensitively at the head of `s`,
returning the rest (a single alternative of a pattern). -/
def dropCI : Str → Str → Option Str
  | [], s => some s
  | _ :: _, [] => none
  | a :: ws, c :: cs => if lowC a = lowC c then dropCI ws cs else none

/-- Consume one-or-more characters satisfying `p` (a greedy `X+` whose
follower class is disjoint from `X`), returning the rest. -/
def span1 (p : Char → Bool) : Str → Option Str
  | [] => none
  | c :: cs => if p c then some (cs.dropWhile p) else none

/-- Join a list of strings with a separator (`str.join`). -/
def joinSep (sep : Str) : List Str → Str
  | [] => []
  | [x] => x
  | x :: y :: t => x ++ sep ++ joinSep sep (y :: t)

/-- The fixed symptom vocabulary of the summarizer, in scan order. -/
def symptoms : List Str :=
  [lit "fever", lit "headache", lit "nausea", lit "vomiting", lit "diarrhea",
   lit "fatigue", lit "chest pain", lit "shortness of breath", lit "dizziness",
   lit "cough", lit "rash", lit "abdominal pain", lit "back pain",
   lit "joint pain", lit "muscle pain"]

/-- The fixed medication vocabulary of the summarizer, in scan order. -/
def common_meds : List Str :=
  [lit "acetaminophen", lit "ibuprofen", lit "aspirin", lit "lisinopril",
   lit "metformin", lit "atorvastatin", lit "amlodipine", lit "omeprazole",
   lit "losartan", lit "gabapentin"]

/-- Matcher at one position for `(?:patient\s+id|mrn|id)`: the three
alternatives are tried in source order; their first characters are
pairwise distinct, so at most one can start at a given position. -/
def idAlt (s : Str) : Option Str :=
  match (dropCI (lit "patient") s).bind (fun r =>
          (span1 isPyWs r).bind (dropCI (lit "id"))) with
  | some r => some r
  | none =>
    match dropCI (lit "mrn") s with
    | some r => some r
    | none => dropCI (lit "id") s

/-- Matcher at one position for the full patient-identifier pattern
`(?:patient\s+id|mrn|id)[:\s]+([A-Za-z0-9\-]+)`, returning the capture. -/
def idMatchAt (s : Str) : Option Str :=
  (idAlt s).bind fun r =>
    (span1 isSepC r).bind fun r2 =>
      let cap := r2.takeWhile isIdChar
      if cap = [] then none else some cap

/-- Patient identifier extraction: first match anywhere in the text, with
the sentinel "UNKNOWN" when no position matches. -/
def extract_patient_id (text : Str) : Str :=
  match scanFirst idMatchAt text with
  | some cap => cap
  | none => lit "UNKNOWN"

/-- Greedy `\d{1,2}` followed by a class disjoint from digits: one or two
digits are consumed; three consecutive digits make both the two-digit and
the one-digit attempt fail, so the position fails. -/
def dig12 (s : Str) : Option (Str × Str) :=
  let m := s.takeWhile isDigitC
  if m ≠ [] ∧ m.length ≤ 2 then some (m, s.drop m.length) else none

/-- Matcher at one position for `(?:date)[:\s]+(\d{1,2}/\d{1,2}/\d{4})`,
returning the captured date token. -/
def dateMatchAt (s : Str) : Option Str :=
  (dropCI (lit "date") s).bind fun r =>
    (span1 isSepC r).bind fun r2 =>
      (dig12 r2).bind fun p =>
        match p.2 with
        | '/' :: r4 =>
          (dig12 r4).bind fun q =>
            match q.2 with
            | '/' :: r6 =>
              let y := r6.takeWhile isDigitC
              if 4 ≤ y.length then some (p.1 ++ '/' :: q.1 ++ '/' :: y.take 4)
              else none
            | _ => none
        | _ => none

/-- Numeric value of a digit string. -/
def natOf (s : Str) : Nat := s.foldl (fun n c => n * 10 + (c.toNat - 48)) 0

/-- Gregorian leap-year test, as `datetime` validates dates. -/
def isLeap (y : Nat) : Bool := y % 4 = 0 ∧ (y % 100 ≠ 0 ∨ y % 400 = 0)

/-- Days in a month, as `datetime` validates dates. -/
def daysInMonth (y m : Nat) : Nat :=
  if m = 2 then (if isLeap y then 29 else 28)
  else if m = 4 ∨ m = 6 ∨ m = 9 ∨ m = 11 then 30
  else 31

/-- Model of `datetime.strptime(tok, "%m/%d/%Y")`: the whole token must be
month (one or two digits), day (one or two digits) and a four-digit year,
and must denote a valid calendar date with year at least 1 (Python's
`MINYEAR`); otherwise the call raises, modelled as `none`. -/
def parse_mdy (tok : Str) : Option (Nat × Nat × Nat) :=
  let ms := tok.takeWhile isDigitC
  if ms = [] ∨ ¬ ms.length ≤ 2 then none else
  match tok.drop ms.length with
  | '/' :: r1 =>
    let ds := r1.takeWhile isDigitC
    if ds = [] ∨ ¬ ds.length ≤ 2 then none else
    match r1.drop ds.length with
    | '/' :: r2 =>
      if r2.length = 4 ∧ r2.all isDigitC then
        let m := natOf ms
        let d := natOf ds
        let y := natOf r2
        if 1 ≤ m ∧ m ≤ 12 ∧ 1 ≤ d ∧ d ≤ daysInMonth y m ∧ 1 ≤ y then
          some (m, d, y)
        else none
      else none
    | _ => none
  | _ => none

/-- One decimal digit character of the canonical date rendering. -/
def dig (k : Nat) : Char := Char.ofNat (48 + k)

/-- Two-digit zero-padded rendering (`%02d`) of a number below 100. -/
def pad2 (n : Nat) : Str := [dig (n / 10 % 10), dig (n % 10)]

/-- Four-digit zero-padded rendering (`%04d`) of a number below 10000,
the documented `%Y` rendering of `strftime`. -/
def pad4 (n : Nat) : Str :=
  [dig (n / 1000 % 10), dig (n / 100 % 10), dig (n / 10 % 10), dig (n % 10)]

/-- Canonical `YYYY-MM-DD` rendering, the model of
`date_obj.strftime("%Y-%m-%d")`. -/
def formatYMD (y m d : Nat) : Str := pad4 y ++ '-' :: pad2 m ++ '-' :: pad2 d

/-- Report date extraction: the first date-labelled token is parsed; a
token that fails calendar parsing, or the absence of any match, falls back
to the current date `today`.  Never raises and always returns a string. -/
def extract_report_date (today : Str) (text : Str) : Str :=
  match scanFirst dateMatchAt text with
  | some tok =>
    match parse_mdy tok with
    | some mdy => formatYMD mdy.2.2 mdy.1 mdy.2.1
    | none => today
  | none => today

/-- Model of `extract_patient_info`: the pair of patient id and report
date extracted from one text. -/
def extract_patient_info (today : Str) (text : Str) : Str × Str :=
  (extract_patient_id text, extract_report_date today text)

/-- Symptom extraction: the fixed vocabulary is scanned in order and an
entry is kept when it occurs in the lower-cased text. -/
def extract_symptoms (text : Str) : List Str :=
  symptoms.filter (fun s => containsSub s (lowStr text))

/-- Matcher at one position for `([A-Za-z]+)\s+\d+\s*mg` (IGNORECASE),
returning the captured word and the rest of the text after the match.
All adjacent classes are disjoint, so greedy maximal munch is exact. -/
def matchMgAt (s : Str) : Option (Str × Str) :=
  let w := s.takeWhile isAsciiLetter
  if w = [] then none else
  match span1 isPyWs (s.drop w.length) with
  | none => none
  | some r2 =>
    let dg := r2.takeWhile isDigitC
    if dg = [] then none else
    match dropCI (lit "mg") ((r2.drop dg.length).dropWhile isPyWs) with
    | some rest => some (w, rest)
    | none => none

/-- Fuel-driven scan of `re.findall`: non-overlapping leftmost matches,
resuming after the end of each match.  Every step consumes at least one
character, so fuel equal to the text length plus one is exact. -/
def mgAux : Nat → Str → List Str
  | 0, _ => []
  | fuel + 1, s =>
    match matchMgAt s with
    | some (w, rest) => w :: mgAux fuel rest
    | none =>
      match s with
      | [] => []
      | _ :: ss => mgAux fuel ss

/-- All captures of the dosage pattern, in text order. -/
def mgCaptures (text : Str) : List Str := mgAux (text.length + 1) text

/-- Second pass of medication extraction: each capture is lower-cased and
appended unless an equal entry is already in the accumulated list. -/
def dedupApp (acc : List Str) : List Str → List Str
  | [] => acc
  | w :: ws =>
    if lowStr w ∈ acc then dedupApp acc ws
    else dedupApp (acc ++ [lowStr w]) ws

/-- Medication extraction: vocabulary containment scan, then the dosage
pattern pass with case-insensitive deduplication. -/
def extract_medications (text : Str) : List Str :=
  dedupApp (common_meds.filter (fun m => containsSub m (lowStr text)))
    (mgCaptures text)

/-- Greedy `\d+(?:\.\d+)?` capture: maximal digits, then a fractional part
exactly when a dot followed by at least one digit comes next. -/
def numCap (s : Str) : Option Str :=
  let d := s.takeWhile isDigitC
  if d = [] then none else
  match s.drop d.length with
  | '.' :: s2 =>
    let f := s2.takeWhile isDigitC
    if f = [] then some d else some (d ++ '.' :: f)
  | _ => some d

/-- Greedy `\d+/\d+` capture of the blood-pressure value. -/
def bpCap (s : Str) : Option Str :=
  let d := s.takeWhile isDigitC
  if d = [] then none else
  match s.drop d.length with
  | '/' :: s2 =>
    let f := s2.takeWhile isDigitC
    if f = [] then none else some (d ++ '/' :: f)
  | _ => none

/-- Matcher at one position for a numeric lab pattern
`LABEL[:\s]+(\d+(?:\.\d+)?)`. -/
def labNumAt (label : Str) (s : Str) : Option Str :=
  (dropCI label s).bind fun r => (span1 isSepC r).bind numCap

/-- Matcher at one position for `(?:bp|blood pressure)[:\s]+(\d+/\d+)`;
the two alternatives are tried in source order and are mutually exclusive
at any position. -/
def bpAt (s : Str) : Option Str :=
  (match dropCI (lit "bp") s with
   | some r => some r
   | none => dropCI (lit "blood pressure") s).bind fun r =>
    (span1 isSepC r).bind bpCap

/-- Matcher at one position for `temp(?:erature)?[:\s]+(\d+(?:\.\d+)?)`:
the greedy optional group is tried first, with backtracking to the bare
"temp" when the tail fails after "erature". -/
def tempAt (s : Str) : Option Str :=
  (dropCI (lit "temp") s).bind fun r =>
    match (dropCI (lit "erature") r).bind
        (fun r2 => (span1 isSepC r2).bind numCap) with
    | some v => some v
    | none => (span1 isSepC r).bind numCap

/-- The fixed lab-pattern table, in the source's iteration order. -/
def labMatchers : List (Str × (Str → Option Str)) :=
  [(lit "glucose", labNumAt (lit "glucose")),
   (lit "hemoglobin", labNumAt (lit "hemoglobin")),
   (lit "cholesterol", labNumAt (lit "cholesterol")),
   (lit "blood_pressure", bpAt),
   (lit "temperature", tempAt)]

/-- Lab-value extraction: one independent first-match search per key;
keys with no match are omitted, in table order. -/
def extract_lab_values (text : Str) : List (Str × Str) :=
  labMatchers.foldl
    (fun acc p =>
      match scanFirst p.2 text with
      | some v => acc ++ [(p.1, v)]
      | none => acc) []

/-- Terminator test of the diagnosis capture, at the remaining suffix:
`(?:\n\n|\n[A-Z]|$)` where, under IGNORECASE, `[A-Z]` matches any ASCII
letter, and `$` matches at the end or just before a trailing newline. -/
def diagTermB : Str → Bool
  | [] => true
  | ['\n'] => true
  | '\n' :: c :: _ => if c = '\n' then true else isAsciiLetter c
  | _ => false

/-- Lazy `(.*?)` capture (DOTALL): the shortest prefix whose end position
satisfies the terminator. -/
def lazyCap : Str → Str
  | [] => []
  | c :: cs => if diagTermB (c :: cs) then [] else c :: lazyCap cs

/-- Matcher at one position for one diagnosis pattern
`LABEL[:\s]+(.*?)(?:\n\n|\n[A-Z]|$)`: since `$` always succeeds at the
end of the input, the match succeeds whenever the label and at least one
separator are present. -/
def diagCapAt (label : Str) (s : Str) : Option Str :=
  (dropCI label s).bind fun r => (span1 isSepC r).map lazyCap

/-- Model of `str.strip()`: remove leading and trailing whitespace. -/
def stripWsB (s : Str) : Str :=
  ((s.dropWhile isPyWs).reverse.dropWhile isPyWs).reverse

/-- Model of `re.sub(r"\s+", " ", s)`: each maximal whitespace run is
replaced by a single space. -/
def collapseGo : Bool → Str → Str
  | _, [] => []
  | prevWs, c :: cs =>
    if isPyWs c then
      (if prevWs then collapseGo true cs else ' ' :: collapseGo true cs)
    else c :: collapseGo false cs

/-- Normalization applied to a matched diagnosis: strip, collapse
whitespace runs, truncate to 200 characters. -/
def cleanDiag (c : Str) : Str := (collapseGo false (stripWsB c)).take 200

/-- Diagnosis extraction: the three label patterns are tried in order over
the whole text; the first that matches anywhere wins; no match yields the
sentinel. -/
def extract_diagnosis (text : Str) : Str :=
  match scanFirst (diagCapAt (lit "diagnosis")) text with
  | some c => cleanDiag c
  | none =>
    match scanFirst (diagCapAt (lit "impression")) text with
    | some c => cleanDiag c
    | none =>
      match scanFirst (diagCapAt (lit "assessment")) text with
      | some c => cleanDiag c
      | none => lit "No clear diagnosis found"

/-- The report record assembled from one text (the `MedicalReport`
dataclass of the source; `lab_values` keeps the source's insertion
order). -/
structure MedicalReport where
  patient_id : Str
  report_date : Str
  report_type : Str
  diagnosis : Str
  symptoms : List Str
  medications : List Str
  lab_values : List (Str × Str)
  summary : Str
  raw_text : Str
deriving DecidableEq

/-- Summary generation: pipe-joined segments in fixed order, with the
diagnosis segment dropped at the sentinel, at most three symptoms, at
most three medications, and at most two lab pairs. -/
def generate_summary (r : MedicalReport) : Str :=
  let parts := [lit "Patient: " ++ r.patient_id, lit "Date: " ++ r.report_date,
                lit "Type: " ++ r.report_type]
  let parts := if r.diagnosis ≠ lit "No clear diagnosis found" then
                 parts ++ [lit "Diagnosis: " ++ r.diagnosis] else parts
  let parts := if r.symptoms ≠ [] then
                 parts ++ [lit "Symptoms: " ++ joinSep (lit ", ") (r.symptoms.take 3)]
               else parts
  let parts := if r.medications ≠ [] then
                 parts ++ [lit "Medications: " ++ joinSep (lit ", ") (r.medications.take 3)]
               else parts
  let parts := if r.lab_values ≠ [] then
                 parts ++ [lit "Labs: " ++ joinSep (lit ", ")
                   ((r.lab_values.take 2).map (fun p => p.1 ++ '=' :: p.2))]
               else parts
  joinSep (lit " | ") parts

/-- The record assembler `process_report`: run every extractor once,
build the record, then fill in the summary. -/
def process_report (today : Str) (text : Str) (report_type : Str) :
    MedicalReport :=
  let info := extract_patient_info today text
  let r : MedicalReport :=
    { patient_id := info.1
      report_date := info.2
      report_type := report_type
      diagnosis := extract_diagnosis text
      symptoms := extract_symptoms text
      medications := extract_medications text
      lab_values := extract_lab_values text
      summary := []
      raw_text := text }
  { r with summary := generate_summary r }

/-- Lower-case hexadecimal digit, as `json.dumps` renders escapes. -/
def hexDig (k : Nat) : Char :=
  if k < 10 then Char.ofNat (48 + k) else Char.ofNat (87 + k)

/-- Value of one hexadecimal digit character, both cases accepted as by
`json.loads`. -/
def hexVal (c : Char) : Option Nat :=
  if 48 ≤ c.toNat ∧ c.toNat ≤ 57 then some (c.toNat - 48)
  else if 97 ≤ c.toNat ∧ c.toNat ≤ 102 then some (c.toNat - 87)
  else if 65 ≤ c.toNat ∧ c.toNat ≤ 70 then some (c.toNat - 55)
  else none

/-- Four-digit hexadecimal rendering of a number below 65536. -/
def hex4 (n : Nat) : Str :=
  [hexDig (n / 4096 % 16), hexDig (n / 256 % 16), hexDig (n / 16 % 16),
   hexDig (n % 16)]

/-- Combined value of four hexadecimal digit characters. -/
def hex4val (a b c d : Char) : Option Nat :=
  (hexVal a).bind fun va => (hexVal b).bind fun vb =>
    (hexVal c).bind fun vc => (hexVal d).map fun vd =>
      ((va * 16 + vb) * 16 + vc) * 16 + vd

/-- Encoding of one character inside a JSON string literal, following
`json.dumps` with its default `ensure_ascii=True`: the two structural
characters and the five short escapes, `\uXXXX` for the other control and
all non-ASCII characters, and a surrogate pair beyond the basic plane. -/
def encChar (c : Char) : Str :=
  if c = '"' then ['\\', '"']
  else if c = '\\' then ['\\', '\\']
  else if c = '\n' then ['\\', 'n']
  else if c = '\r' then ['\\', 'r']
  else if c = '\t' then ['\\', 't']
  else if c = '\x08' then ['\\', 'b']
  else if c = '\x0c' then ['\\', 'f']
  else if c.toNat < 32 then '\\' :: 'u' :: hex4 c.toNat
  else if c.toNat ≤ 126 then [c]
  else if c.toNat < 65536 then '\\' :: 'u' :: hex4 c.toNat
  else
    '\\' :: 'u' :: hex4 (55296 + (c.toNat - 65536) / 1024) ++
      '\\' :: 'u' :: hex4 (56320 + (c.toNat - 65536) % 1024)

/-- Body of a JSON string literal. -/
def encBody : Str → Str
  | [] => []
  | c :: cs => encChar c ++ encBody cs

/-- A complete JSON string literal. -/
def encJString (s : Str) : Str := '"' :: encBody s ++ ['"']

/-- Comma-space joined string literals, the element layout `json.dumps`
produces for a non-empty list. -/
def encItems : List Str → Str
  | [] => []
  | x :: t =>
    encJString x ++
      match t with
      | [] => []
      | _ :: _ => ',' :: ' ' :: encItems t

/-- Model of `json.dumps` on a list of strings. -/
def encodeStrList (l : List Str) : Str := '[' :: encItems l ++ [']']

/-- Key-colon-space-value pairs, the layout `json.dumps` produces for a
non-empty string-to-string mapping (insertion order preserved). -/
def encPairs : List (Str × Str) → Str
  | [] => []
  | p :: t =>
    encJString p.1 ++ ':' :: ' ' :: encJString p.2 ++
      match t with
      | [] => []
      | _ :: _ => ',' :: ' ' :: encPairs t

/-- Model of `json.dumps` on a string-to-string mapping. -/
def encodeStrMap (m : List (Str × Str)) : Str :=
  '\x7b' :: encPairs m ++ ['\x7d']

/-- JSON whitespace accepted between tokens by `json.loads`. -/
def isJsonWs (c : Char) : Bool := c = ' ' ∨ c = '\t' ∨ c = '\n' ∨ c = '\r'

/-- Skip JSON whitespace. -/
def skipWs (s : Str) : Str := s.dropWhile isJsonWs

/-- Decoded value of a single-character escape. -/
def escCharDec (e : Char) : Option Char :=
  if e = '"' then some '"'
  else if e = '\\' then some '\\'
  else if e = '/' then some '/'
  else if e = 'b' then some '\x08'
  else if e = 'f' then some '\x0c'
  else if e = 'n' then some '\n'
  else if e = 'r' then some '\r'
  else if e = 't' then some '\t'
  else none

/-- Read four hexadecimal digit characters and their combined value. -/
def readHex4 : Str → Option (Nat × Str)
  | h1 :: h2 :: h3 :: h4 :: rest => (hex4val h1 h2 h3 h4).map (fun n => (n, rest))
  | _ => none

/-- Read a full `\uXXXX` escape sequence and its value. -/
def readUEsc : Str → Option (Nat × Str)
  | b :: u :: rest => if b = '\\' ∧ u = 'u' then readHex4 rest else none
  | _ => none

/-- Lexer for one unit of a JSON string literal body, following
`json.loads` in strict mode: the closing quote yields `(none, rest)`, a
decoded character yields `(some c, rest)`, raw control characters and
invalid escapes are rejected, and a high surrogate escape must be
completed by a low surrogate escape (a lone surrogate, which Lean
characters cannot represent, is rejected). -/
def nextTok : Str → Option (Option Char × Str)
  | [] => none
  | c :: rest =>
    if c = '"' then some (none, rest)
    else if c = '\\' then
      match rest with
      | [] => none
      | e :: rest2 =>
        if e = 'u' then
          match readHex4 rest2 with
          | none => none
          | some (n, rest3) =>
            if 55296 ≤ n ∧ n ≤ 56319 then
              match readUEsc rest3 with
              | some (m, rest4) =>
                if 56320 ≤ m ∧ m ≤ 57343 then
                  some (some (Char.ofNat (65536 + (n - 55296) * 1024 + (m - 56320))), rest4)
                else none
              | none => none
            else if 56320 ≤ n ∧ n ≤ 57343 then none
            else some (some (Char.ofNat n), rest3)
        else
          match escCharDec e with
          | some ec => some (some ec, rest2)
          | none => none
    else if c.toNat < 32 then none
    else some (some c, rest)

/-- Fuel-driven loop decoding a JSON string literal body up to its
closing quote.  Every step consumes at least one input character, so fuel
above the input length is exact. -/
def psbGo : Nat → Str → Option (Str × Str)
  | 0, _ => none
  | fuel + 1, s =>
    match nextTok s with
    | none => none
    | some (none, rest) => some ([], rest)
    | some (some ch, rest) => (psbGo fuel rest).map fun p => (ch :: p.1, p.2)

/-- Parser for the body of a JSON string literal up to its closing
quote. -/
def parseStrBody (s : Str) : Option (Str × Str) := psbGo (s.length + 1) s

/-- Parser for a complete JSON string literal. -/
def parseJString : Str → Option (Str × Str)
  | [] => none
  | c :: rest => if c = '"' then parseStrBody rest else none

/-- Fuel-driven parser for the comma-separated elements of a non-empty
JSON array of strings, up to and including the closing bracket.  Each
round consumes at least one element, so fuel bounded below by the element
count is exact. -/
def parseItems : Nat → Str → Option (List Str × Str)
  | 0, _ => none
  | fuel + 1, s =>
    match parseJString s with
    | none => none
    | some (x, r) =>
      match skipWs r with
      | [] => none
      | c :: r2 =>
        if c = ']' then some ([x], r2)
        else if c = ',' then
          (parseItems fuel (skipWs r2)).map fun p => (x :: p.1, p.2)
        else none

/-- Parser for a JSON array of strings. -/
def parseStrList (s : Str) : Option (List Str × Str) :=
  match skipWs s with
  | [] => none
  | c :: r =>
    if c = '[' then
      match skipWs r with
      | [] => none
      | d :: r2 =>
        if d = ']' then some ([], r2)
        else parseItems ((d :: r2).length + 1) (d :: r2)
    else none

/-- Model of `json.loads` on an encoded list of strings: parse the array
and require that only whitespace follows. -/
def decodeStrList (s : Str) : Option (List Str) :=
  match parseStrList s with
  | some (l, rest) => if skipWs rest = [] then some l else none
  | none => none

/-- Fuel-driven parser for the comma-separated members of a non-empty
JSON object with string values, up to and including the closing brace. -/
def parsePairs : Nat → Str → Option (List (Str × Str) × Str)
  | 0, _ => none
  | fuel + 1, s =>
    match parseJString s with
    | none => none
    | some (k, r) =>
      match skipWs r with
      | [] => none
      | c :: r2 =>
        if c = ':' then
          match parseJString (skipWs r2) with
          | none => none
          | some (v, r3) =>
            match skipWs r3 with
            | [] => none
            | d :: r4 =>
              if d = '\x7d' then some ([(k, v)], r4)
              else if d = ',' then
                (parsePairs fuel (skipWs r4)).map fun p => ((k, v) :: p.1, p.2)
              else none
        else none

/-- Parser for a JSON object with string keys and values. -/
def parseStrMap (s : Str) : Option (List (Str × Str) × Str) :=
  match skipWs s with
  | [] => none
  | c :: r =>
    if c = '\x7b' then
      match skipWs r with
      | [] => none
      | d :: r2 =>
        if d = '\x7d' then some ([], r2)
        else parsePairs ((d :: r2).length + 1) (d :: r2)
    else none

/-- Model of `json.loads` on an encoded string-to-string mapping. -/
def decodeStrMap (s : Str) : Option (List (Str × Str)) :=
  match parseStrMap s with
  | some (m, rest) => if skipWs rest = [] then some m else none
  | none => none

/-- Byte-wise lexicographic string comparison, the BINARY collation SQLite
applies when comparing and ordering TEXT values (UTF-8 byte order agrees
with scalar-value order). -/
def strLe : Str → Str → Bool
  | [], _ => true
  | _ :: _, [] => false
  | a :: as, b :: bs =>
    if a.toNat < b.toNat then true
    else if b.toNat < a.toNat then false
    else strLe as bs

/-- One stored row of the `reports` table.  The sequence/mapping fields
hold the JSON text produced at insert time; the auto-assigned creation
timestamp is never read back by the source and is omitted. -/
structure Row where
  id : Nat
  patient_id : Str
  report_date : Str
  report_type : Str
  diagnosis : Str
  symptoms : Str
  medications : Str
  lab_values : Str
  summary : Str
  raw_text : Str
deriving DecidableEq

/-- The persistence store: the rows of the `reports` table in insertion
order. -/
structure Store where
  rows : List Row
deriving DecidableEq

/-- A store with an empty `reports` table. -/
def emptyStore : Store := ⟨[]⟩

/-- The row `save_report` appends for report `r` under row id `i`: the
plain columns copied, the three structured fields JSON-encoded. -/
def mkRowOf (i : Nat) (r : MedicalReport) : Row :=
  { id := i
    patient_id := r.patient_id
    report_date := r.report_date
    report_type := r.report_type
    diagnosis := r.diagnosis
    symptoms := encodeStrList r.symptoms
    medications := encodeStrList r.medications
    lab_values := encodeStrMap r.lab_values
    summary := r.summary
    raw_text := r.raw_text }

/-- Model of `save_report`: append one row whose sequence/mapping fields
are JSON-encoded, with the next integer primary key (append-only store),
returning the new store and the assigned row id (`lastrowid`). -/
def save_report (s : Store) (r : MedicalReport) : Store × Nat :=
  let rid := s.rows.length + 1
  (⟨s.rows ++ [mkRowOf rid r]⟩, rid)

/-- The `ORDER BY report_date DESC` relation on rows: later (or equal)
dates first, by BINARY-collation comparison of the date strings. -/
def dateDesc (a b : Row) : Prop := strLe b.report_date a.report_date = true

instance : DecidableRel dateDesc := fun a b =>
  instDecidableEqBool (strLe b.report_date a.report_date) true

/-- Decoding of a stored sequence column on read:
`json.loads(cell) if cell else []`; a failing parse is a raised
exception, modelled as `none`. -/
def decodeListField (s : Str) : Option (List Str) :=
  if s = [] then some [] else decodeStrList s

/-- Decoding of the stored mapping column on read. -/
def decodeMapField (s : Str) : Option (List (Str × Str)) :=
  if s = [] then some [] else decodeStrMap s

/-- The dictionary `get_patient_reports` builds from one row (columns 0
through 8, with the three structured fields decoded). -/
structure RepDict where
  id : Nat
  patient_id : Str
  report_date : Str
  report_type : Str
  diagnosis : Str
  symptoms : List Str
  medications : List Str
  lab_values : List (Str × Str)
  summary : Str
deriving DecidableEq

/-- Decode one fetched row into the result dictionary. -/
def decodeRow (row : Row) : Option RepDict :=
  match decodeListField row.symptoms with
  | none => none
  | some sy =>
    match decodeListField row.medications with
    | none => none
    | some me =>
      match decodeMapField row.lab_values with
      | none => none
      | some la =>
        some { id := row.id
               patient_id := row.patient_id
               report_date := row.report_date
               report_type := row.report_type
               diagnosis := row.diagnosis
               symptoms := sy
               medications := me
               lab_values := la
               summary := row.summary }

/-- Decode each row in order; the first failure propagates (a raised
exception aborts the whole fetch). -/
def mapMO {α β : Type} (f : α → Option β) : List α → Option (List β)
  | [] => some []
  | x :: xs =>
    match f x with
    | none => none
    | some y => (mapMO f xs).map (fun l => y :: l)

/-- Model of `get_patient_reports`: rows whose `patient_id` equals the
argument, ordered by report date descending, each decoded into a
dictionary. -/
def get_patient_reports (s : Store) (pid : Str) : Option (List RepDict) :=
  mapMO decodeRow
    (List.insertionSort dateDesc (s.rows.filter (fun row => row.patient_id == pid)))

/-- SQLite LIKE matching: `%` matches any sequence, `_` any single
character, and ordinary characters compare case-insensitively on the
ASCII range (the documented default LIKE behaviour). -/
def likeM : Str → Str → Bool
  | [], t => t.isEmpty
  | p :: ps, t =>
    if p = '%' then (suffixes t).any (fun s2 => likeM ps s2)
    else if p = '_' then
      match t with
      | [] => false
      | _ :: ts => likeM ps ts
    else
      match t with
      | [] => false
      | c :: ts => lowC p == lowC c && likeM ps ts

/-- The LIKE pattern the source builds for a keyword search:
`f"%{query}%"`. -/
def sqlLikePat (q : Str) : Str := '%' :: q ++ ['%']

/-- The abbreviated record `search_reports` returns
(id, patient_id, report_date, summary). -/
structure SearchHit where
  id : Nat
  patient_id : Str
  date : Str
  summary : Str
deriving DecidableEq

/-- Model of `search_reports`: rows whose raw text or diagnosis matches
`LIKE '%query%'`, ordered by report date descending, projected to the
abbreviated record. -/
def search_reports (s : Store) (q : Str) : List SearchHit :=
  (List.insertionSort dateDesc (s.rows.filter (fun row =>
      likeM (sqlLikePat q) row.raw_text || likeM (sqlLikePat q) row.diagnosis))).map
    (fun row => { id := row.id
                  patient_id := row.patient_id
                  date := row.report_date
                  summary := row.summary })

/-- Case-insensitive (ASCII) substring occurrence, used to state the
search and extraction properties. -/
def occursCI (n : Str) (h : Str) : Bool := containsSub (lowStr n) (lowStr h)

/-- A keyword free of LIKE wildcard characters. -/
def noWild (q : Str) : Bool := q.all (fun c => ¬ c = '%' ∧ ¬ c = '_')

/-- Shape test for the canonical `YYYY-MM-DD` rendering: four digits,
dash, two digits, dash, two digits. -/
def isYMDShape : Str → Bool
  | [a, b, c, d, e, f, g, h, i, j] =>
    isDigitC a ∧ isDigitC b ∧ isDigitC c ∧ isDigitC d ∧ e = '-' ∧
    isDigitC f ∧ isDigitC g ∧ h = '-' ∧ isDigitC i ∧ isDigitC j
  | _ => false

/-- The dictionary expected when a row stored by `save_report` with id
`i` for report `r` is decoded back. -/
def mkDictOf (i : Nat) (r : MedicalReport) : RepDict :=
  { id := i
    patient_id := r.patient_id
    report_date := r.report_date
    report_type := r.report_type
    diagnosis := r.diagnosis
    symptoms := r.symptoms
    medications := r.medications
    lab_values := r.lab_values
    summary := r.summary }

/-- Alphanumeric character test, for word-boundary statements. -/
def isAlnumC (c : Char) : Bool := isAsciiLetter c ∨ isDigitC c

/-- A word boundary sits at the text edge or next to a non-alphanumeric
character. -/
def wordBoundaryB : Option Char → Bool
  | none => true
  | some c => ¬ isAlnumC c

/-- Case-insensitive occurrence of `w` at the head of `s` as a standalone
word, given the character just before the position. -/
def wordAtB (w : Str) (pre : Option Char) (s : Str) : Bool :=
  match dropCI w s with
  | some r => wordBoundaryB pre ∧ wordBoundaryB r.head?
  | none => false

/-- Scan for a standalone-word occurrence, tracking the previous
character. -/
def hasWordAux (w : Str) : Option Char → Str → Bool
  | pre, [] => wordAtB w pre []
  | pre, c :: cs => wordAtB w pre (c :: cs) || hasWordAux w (some c) cs

/-- Case-insensitive standalone-word occurrence of `w` in `t` (both
neighbours of the occurrence, when present, non-alphanumeric). -/
def hasWordCI (w t : Str) : Bool := hasWordAux w none t

theorem charValidNat (c : Char) :
    c.toNat < 55296 ∨ (57343 < c.toNat ∧ c.toNat < 1114112) := c.valid

theorem hexVal_hexDig : ∀ k < 16, hexVal (hexDig k) = some k := by decide

theorem hex4val_hex4 (n : Nat) (h : n < 65536) :
    hex4val (hexDig (n / 4096 % 16)) (hexDig (n / 256 % 16))
      (hexDig (n / 16 % 16)) (hexDig (n % 16)) = some n := by
  have h1 := hexVal_hexDig (n / 4096 % 16) (Nat.mod_lt _ (by omega))
  have h2 := hexVal_hexDig (n / 256 % 16) (Nat.mod_lt _ (by omega))
  have h3 := hexVal_hexDig (n / 16 % 16) (Nat.mod_lt _ (by omega))
  have h4 := hexVal_hexDig (n % 16) (Nat.mod_lt _ (by omega))
  unfold hex4val
  rw [h1, h2, h3, h4]
  show some (((n / 4096 % 16 * 16 + n / 256 % 16) * 16 + n / 16 % 16) * 16 +
    n % 16) = some n
  have harith : ((n / 4096 % 16 * 16 + n / 256 % 16) * 16 + n / 16 % 16) * 16 +
      n % 16 = n := by omega
  rw [harith]

theorem readHex4_hex4 (n : Nat) (h : n < 65536) (t : Str) :
    readHex4 (hex4 n ++ t) = some (n, t) := by
  simp only [hex4, List.cons_append, List.nil_append, readHex4,
    hex4val_hex4 n h, Option.map_some']

theorem readUEsc_hex4 (n : Nat) (h : n < 65536) (t : Str) :
    readUEsc ('\\' :: 'u' :: (hex4 n ++ t)) = some (n, t) := by
  simp [readUEsc, readHex4_hex4 n h]

theorem nextTok_encChar (c : Char) (t : Str) :
    nextTok (encChar c ++ t) = some (some c, t) := by
  have hval := charValidNat c
  by_cases hq : c = '"'
  · subst hq; rfl
  by_cases hb : c = '\\'
  · subst hb; rfl
  by_cases hn : c = '\n'
  · subst hn; rfl
  by_cases hr : c = '\r'
  · subst hr; rfl
  by_cases ht : c = '\t'
  · subst ht; rfl
  by_cases h8 : c = '\x08'
  · subst h8; rfl
  by_cases hf : c = '\x0c'
  · subst hf; rfl
  by_cases hc : c.toNat < 32
  · have hlt : c.toNat < 65536 := by omega
    have hs1 : ¬ (55296 ≤ c.toNat ∧ c.toNat ≤ 56319) := by omega
    have hs2 : ¬ (56320 ≤ c.toNat ∧ c.toNat ≤ 57343) := by omega
    simp only [encChar, if_neg hq, if_neg hb, if_neg hn, if_neg hr, if_neg ht,
      if_neg h8, if_neg hf, if_pos hc, List.cons_append]
    simp [nextTok, readHex4_hex4 c.toNat hlt, hs1, hs2, Char.ofNat_toNat]
  by_cases hp : c.toNat ≤ 126
  · simp only [encChar, if_neg hq, if_neg hb, if_neg hn, if_neg hr, if_neg ht,
      if_neg h8, if_neg hf, if_neg hc, if_pos hp, List.cons_append,
      List.nil_append]
    simp [nextTok, hq, hb, hc]
  by_cases hbmp : c.toNat < 65536
  · have hs1 : ¬ (55296 ≤ c.toNat ∧ c.toNat ≤ 56319) := by omega
    have hs2 : ¬ (56320 ≤ c.toNat ∧ c.toNat ≤ 57343) := by omega
    simp only [encChar, if_neg hq, if_neg hb, if_neg hn, if_neg hr, if_neg ht,
      if_neg h8, if_neg hf, if_neg hc, if_neg hp, if_pos hbmp,
      List.cons_append]
    simp [nextTok, readHex4_hex4 c.toNat hbmp, hs1, hs2, Char.ofNat_toNat]
  · have hup : c.toNat < 1114112 := by omega
    have hmod := Nat.mod_lt (c.toNat - 65536) (show 0 < 1024 by omega)
    have hhi : 55296 + (c.toNat - 65536) / 1024 < 65536 := by omega
    have hloB : 56320 + (c.toNat - 65536) % 1024 < 65536 := by omega
    have hs1 : 55296 ≤ 55296 + (c.toNat - 65536) / 1024 ∧
        55296 + (c.toNat - 65536) / 1024 ≤ 56319 := by omega
    have hs2 : 56320 ≤ 56320 + (c.toNat - 65536) % 1024 ∧
        56320 + (c.toNat - 65536) % 1024 ≤ 57343 := by omega
    have e1 : 55296 + (c.toNat - 65536) / 1024 - 55296 =
        (c.toNat - 65536) / 1024 := by omega
    have e2 : 56320 + (c.toNat - 65536) % 1024 - 56320 =
        (c.toNat - 65536) % 1024 := by omega
    have hrec : 65536 + (c.toNat - 65536) / 1024 * 1024 +
        (c.toNat - 65536) % 1024 = c.toNat := by omega
    simp only [encChar, if_neg hq, if_neg hb, if_neg hn, if_neg hr, if_neg ht,
      if_neg h8, if_neg hf, if_neg hc, if_neg hp, if_neg hbmp,
      List.cons_append, List.append_assoc]
    simp [nextTok, readHex4_hex4 _ hhi, readUEsc_hex4 _ hloB, hs1, hs2,
      e1, e2, hrec, Char.ofNat_toNat]

theorem psbGo_encBody (s : Str) :
    ∀ (fuel : Nat) (rest : Str), s.length < fuel →
      psbGo fuel (encBody s ++ '"' :: rest) = some (s, rest) := by
  induction s with
  | nil =>
    intro fuel rest h
    match fuel, h with
    | f + 1, _ => simp [encBody, psbGo, nextTok]
  | cons c cs ih =>
    intro fuel rest h
    match fuel, h with
    | f + 1, h =>
      have hlen : cs.length < f := by simp at h; omega
      simp only [encBody, List.append_assoc, List.cons_append, psbGo,
        nextTok_encChar, ih f rest hlen, Option.map_some']

theorem len_encChar (c : Char) : 1 ≤ (encChar c).length := by
  by_contra h
  have he : encChar c = [] := by
    cases hc : encChar c with
    | nil => rfl
    | cons a as => rw [hc] at h; simp at h
  have hcontra := nextTok_encChar c []
  rw [he] at hcontra
  simp [nextTok] at hcontra

theorem len_encBody (s : Str) : s.length ≤ (encBody s).length := by
  induction s with
  | nil => simp [encBody]
  | cons c cs ih =>
    have := len_encChar c
    simp only [encBody, List.length_append, List.length_cons]
    omega

theorem parseJString_enc (s : Str) (t : Str) :
    parseJString (encJString s ++ t) = some (s, t) := by
  have hshape : encJString s ++ t = '"' :: (encBody s ++ '"' :: t) := by
    simp [encJString]
  rw [hshape]
  show parseStrBody (encBody s ++ '"' :: t) = some (s, t)
  unfold parseStrBody
  apply psbGo_encBody
  have := len_encBody s
  simp only [List.length_append, List.length_cons]
  omega

theorem encItems_cons_cons (x y : Str) (t : List Str) :
    encItems (x :: y :: t) = encJString x ++ (',' :: ' ' :: encItems (y :: t)) :=
  rfl

theorem encItems_single (x : Str) : encItems [x] = encJString x := by
  show encJString x ++ [] = encJString x
  simp

theorem skipWs_quote_head (B : Str) : skipWs ('"' :: B) = '"' :: B := by
  simp [skipWs, isJsonWs]

theorem skipWs_encJString_app (s : Str) (t : Str) :
    skipWs (encJString s ++ t) = encJString s ++ t := by
  have hshape : encJString s ++ t = '"' :: (encBody s ++ '"' :: t) := by
    simp [encJString]
  rw [hshape, skipWs_quote_head]

theorem skipWs_encItems_app (y : Str) (l : List Str) (A : Str) :
    skipWs (encItems (y :: l) ++ A) = encItems (y :: l) ++ A := by
  cases l with
  | nil => rw [encItems_single, skipWs_encJString_app]
  | cons z zs =>
    rw [encItems_cons_cons, List.append_assoc, skipWs_encJString_app]

theorem parseItems_enc (t : List Str) :
    ∀ (x : Str) (fuel : Nat) (rest : Str), t.length < fuel →
      parseItems fuel (encItems (x :: t) ++ (']' :: rest)) =
        some (x :: t, rest) := by
  induction t with
  | nil =>
    intro x fuel rest h
    match fuel, h with
    | f + 1, _ =>
      rw [encItems_single]
      simp only [parseItems, parseJString_enc]
      simp [skipWs, isJsonWs]
  | cons y t' ih =>
    intro x fuel rest h
    match fuel, h with
    | f + 1, h =>
      have hlen : t'.length < f := by simp at h; omega
      rw [encItems_cons_cons, List.append_assoc]
      simp only [List.cons_append, parseItems, parseJString_enc]
      have hws : skipWs (',' :: ' ' :: (encItems (y :: t') ++ ']' :: rest)) =
          ',' :: ' ' :: (encItems (y :: t') ++ ']' :: rest) := by
        simp [skipWs, isJsonWs]
      rw [hws]
      have hws2 : skipWs (' ' :: (encItems (y :: t') ++ ']' :: rest)) =
          encItems (y :: t') ++ ']' :: rest := by
        have hstep : skipWs (' ' :: (encItems (y :: t') ++ ']' :: rest)) =
            skipWs (encItems (y :: t') ++ ']' :: rest) := by
          simp [skipWs, isJsonWs]
        rw [hstep, skipWs_encItems_app]
      simp only [hws2, ih y f rest hlen, Option.map_some']
      simp

theorem len_encJString (s : Str) : 2 ≤ (encJString s).length := by
  simp [encJString]

theorem len_encItems : ∀ l : List Str, l.length ≤ (encItems l).length := by
  intro l
  induction l with
  | nil => simp [encItems]
  | cons x t ih =>
    cases t with
    | nil =>
      rw [encItems_single]
      have := len_encJString x
      simp only [List.length_cons, List.length_nil]
      omega
    | cons y t' =>
      rw [encItems_cons_cons]
      have h1 := len_encJString x
      have h2 := ih
      simp only [List.length_append, List.length_cons] at h2 ⊢
      omega

theorem encItems_shape (x : Str) (t : List Str) :
    ∃ w, encItems (x :: t) = '"' :: w := by
  cases t with
  | nil => exact ⟨encBody x ++ ['"'], by rw [encItems_single]; rfl⟩
  | cons y t' =>
    refine ⟨encBody x ++ ['"'] ++ (',' :: ' ' :: encItems (y :: t')), ?_⟩
    rw [encItems_cons_cons]
    simp [encJString]

theorem decodeStrList_enc (l : List Str) :
    decodeStrList (encodeStrList l) = some l := by
  cases l with
  | nil => decide
  | cons x t =>
    obtain ⟨w, hw⟩ := encItems_shape x t
    have hXshape : encItems (x :: t) ++ [']'] = '"' :: (w ++ [']']) := by
      rw [hw]; rfl
    have hXlen : t.length < ('"' :: (w ++ [']'])).length + 1 := by
      have h1 := len_encItems (x :: t)
      rw [hw] at h1
      simp only [List.length_cons, List.length_append] at h1 ⊢
      omega
    have hfit : parseItems (('"' :: (w ++ [']'])).length + 1)
        (encItems (x :: t) ++ (']' :: [])) = some (x :: t, []) :=
      parseItems_enc t x _ [] hXlen
    rw [show (encItems (x :: t) ++ (']' :: [])) =
      ('"' :: (w ++ [']'])) from hXshape] at hfit
    have hlist : parseStrList (encodeStrList (x :: t)) = some (x :: t, []) := by
      unfold parseStrList encodeStrList
      simp only [List.cons_append, hXshape]
      show parseItems (('"' :: (w ++ [']'])).length + 1)
        ('"' :: (w ++ [']'])) = some (x :: t, [])
      exact hfit
    unfold decodeStrList
    rw [hlist]
    rfl

theorem skipWs_cons_of_not (c : Char) (B : Str) (h : isJsonWs c = false) :
    skipWs (c :: B) = c :: B := by
  simp [skipWs, h]

theorem skipWs_space (B : Str) : skipWs (' ' :: B) = skipWs B := by
  simp [skipWs, isJsonWs]

theorem encPairs_cons_cons (p q : Str × Str) (t : List (Str × Str)) :
    encPairs (p :: q :: t) =
      encJString p.1 ++
        (':' :: ' ' :: (encJString p.2 ++ (',' :: ' ' :: encPairs (q :: t)))) := by
  show (encJString p.1 ++ (':' :: ' ' :: encJString p.2)) ++
    (',' :: ' ' :: encPairs (q :: t)) =
    encJString p.1 ++ (':' :: ' ' :: (encJString p.2 ++ (',' :: ' ' :: encPairs (q :: t))))
  simp

theorem encPairs_single (p : Str × Str) :
    encPairs [p] = encJString p.1 ++ (':' :: ' ' :: encJString p.2) := by
  show (encJString p.1 ++ (':' :: ' ' :: encJString p.2)) ++ [] =
    encJString p.1 ++ (':' :: ' ' :: encJString p.2)
  simp

theorem skipWs_encPairs_app (p : Str × Str) (l : List (Str × Str)) (A : Str) :
    skipWs (encPairs (p :: l) ++ A) = encPairs (p :: l) ++ A := by
  cases l with
  | nil =>
    rw [encPairs_single, List.append_assoc, skipWs_encJString_app]
  | cons q t =>
    rw [encPairs_cons_cons, List.append_assoc, skipWs_encJString_app]

theorem len_encPairs : ∀ l : List (Str × Str), l.length ≤ (encPairs l).length := by
  intro l
  induction l with
  | nil => simp [encPairs]
  | cons p t ih =>
    cases t with
    | nil =>
      rw [encPairs_single]
      have := len_encJString p.1
      simp only [List.length_cons, List.length_append, List.length_nil]
      omega
    | cons q t' =>
      rw [encPairs_cons_cons]
      have h1 := len_encJString p.1
      simp only [List.length_append, List.length_cons] at ih ⊢
      omega

theorem encPairs_shape (p : Str × Str) (t : List (Str × Str)) :
    ∃ w, encPairs (p :: t) = '"' :: w := by
  cases t with
  | nil =>
    refine ⟨encBody p.1 ++ ['"'] ++ (':' :: ' ' :: encJString p.2), ?_⟩
    rw [encPairs_single]
    simp [encJString]
  | cons q t' =>
    refine ⟨encBody p.1 ++ ['"'] ++
      (':' :: ' ' :: (encJString p.2 ++ (',' :: ' ' :: encPairs (q :: t')))), ?_⟩
    rw [encPairs_cons_cons]
    simp [encJString]

theorem parsePairs_enc (t : List (Str × Str)) :
    ∀ (p : Str × Str) (fuel : Nat) (rest : Str), t.length < fuel →
      parsePairs fuel (encPairs (p :: t) ++ ('}' :: rest)) =
        some (p :: t, rest) := by
  induction t with
  | nil =>
    intro p fuel rest h
    match fuel, h with
    | f + 1, _ =>
      rw [encPairs_single, List.append_assoc]
      simp [parsePairs, parseJString_enc, skipWs_cons_of_not, skipWs_space,
        isJsonWs, skipWs_encJString_app]
  | cons q t' ih =>
    intro p fuel rest h
    match fuel, h with
    | f + 1, h =>
      have hlen : t'.length < f := by simp at h; omega
      rw [encPairs_cons_cons, List.append_assoc]
      simp [parsePairs, parseJString_enc, skipWs_cons_of_not, skipWs_space,
        isJsonWs, skipWs_encJString_app, skipWs_encPairs_app,
        ih q f rest hlen]

theorem decodeStrMap_enc (m : List (Str × Str)) :
    decodeStrMap (encodeStrMap m) = some m := by
  cases m with
  | nil => decide
  | cons p t =>
    obtain ⟨w, hw⟩ := encPairs_shape p t
    have hXshape : encPairs (p :: t) ++ ['}'] = '"' :: (w ++ ['}']) := by
      rw [hw]; rfl
    have hXlen : t.length < ('"' :: (w ++ ['}'])).length + 1 := by
      have h1 := len_encPairs (p :: t)
      rw [hw] at h1
      simp only [List.length_cons, List.length_append] at h1 ⊢
      omega
    have hfit : parsePairs (('"' :: (w ++ ['}'])).length + 1)
        (encPairs (p :: t) ++ ('}' :: [])) = some (p :: t, []) :=
      parsePairs_enc t p _ [] hXlen
    rw [show (encPairs (p :: t) ++ ('}' :: [])) =
      ('"' :: (w ++ ['}'])) from hXshape] at hfit
    have hmap : parseStrMap (encodeStrMap (p :: t)) = some (p :: t, []) := by
      unfold parseStrMap encodeStrMap
      simp only [List.cons_append, hXshape]
      show parsePairs (('"' :: (w ++ ['}'])).length + 1)
        ('"' :: (w ++ ['}'])) = some (p :: t, [])
      exact hfit
    unfold decodeStrMap
    rw [hmap]
    rfl

theorem encodeStrList_ne_nil (l : List Str) : encodeStrList l ≠ [] := by
  unfold encodeStrList
  simp

theorem encodeStrMap_ne_nil (m : List (Str × Str)) : encodeStrMap m ≠ [] := by
  unfold encodeStrMap
  simp

/-- C3: for every list of strings and every string-to-string mapping, the
decoding applied at read returns exactly the value serialized at insert:
`decode(encode(x)) = x` for the symptoms, medications and lab_values
fields. -/
theorem c3_store_round_trip :
    (∀ l : List Str, decodeListField (encodeStrList l) = some l) ∧
    (∀ m : List (Str × Str), decodeMapField (encodeStrMap m) = some m) := by
  constructor
  · intro l
    unfold decodeListField
    rw [if_neg (encodeStrList_ne_nil l)]
    exact decodeStrList_enc l
  · intro m
    unfold decodeMapField
    rw [if_neg (encodeStrMap_ne_nil m)]
    exact decodeStrMap_enc m

/-- The Scenario A input text. -/
def scenarioA : Str :=
  lit "Patient ID: P123\nDate: 01/15/2024\nDiagnosis: Acute bronchitis\nSymptoms include fever and cough. Prescribed acetaminophen 500mg."

set_option maxRecDepth 100000 in
/-- C2: on the Scenario A input, `process_report` extracts patient id
P123, canonical date 2024-01-15, diagnosis "Acute bronchitis", symptoms
exactly fever then cough, and medications exactly acetaminophen (the
mg-pattern capture deduplicated against the vocabulary match), regardless
of the current date. -/
theorem c2_scenario_a (today : Str) :
    (process_report today scenarioA (lit "General")).patient_id = lit "P123" ∧
    (process_report today scenarioA (lit "General")).report_date = lit "2024-01-15" ∧
    (process_report today scenarioA (lit "General")).diagnosis = lit "Acute bronchitis" ∧
    (process_report today scenarioA (lit "General")).symptoms = [lit "fever", lit "cough"] ∧
    (process_report today scenarioA (lit "General")).medications = [lit "acetaminophen"] := by
  refine ⟨?_, ?_, ?_, ?_, ?_⟩ <;> rfl

set_option maxRecDepth 100000 in
/-- C10: the identity-introducer patterns carry no word boundaries, so
"id" matches inside "fluid": on "fluid: 30", which contains none of the
introducer tokens as a standalone word, extraction returns "30" rather
than the UNKNOWN sentinel. -/
theorem c10_id_inside_word :
    extract_patient_id (lit "fluid: 30") = lit "30" ∧
    extract_patient_id (lit "fluid: 30") ≠ lit "UNKNOWN" ∧
    hasWordCI (lit "patient id") (lit "fluid: 30") = false ∧
    hasWordCI (lit "mrn") (lit "fluid: 30") = false ∧
    hasWordCI (lit "id") (lit "fluid: 30") = false := by
  refine ⟨by rfl, by decide, by decide, by decide, by decide⟩

set_option maxRecDepth 10000 in
theorem symptoms_low_fixed : ∀ S ∈ symptoms, lowStr S = S := by decide

set_option maxRecDepth 10000 in
theorem symptoms_count_one : ∀ S ∈ symptoms, List.count S symptoms = 1 := by
  decide

/-- C5: a vocabulary symptom is extracted exactly when it occurs
case-insensitively in the text, appears exactly once when extracted, and
the output is ordered by the scan order of the fifteen-entry
vocabulary. -/
theorem c5_symptoms (text : Str) :
    List.Sublist (extract_symptoms text) symptoms ∧
    symptoms.length = 15 ∧
    ∀ S ∈ symptoms,
      (occursCI S text = true ↔ S ∈ extract_symptoms text) ∧
      List.count S (extract_symptoms text) =
        (if occursCI S text then 1 else 0) := by
  refine ⟨List.filter_sublist _, by decide, fun S hS => ?_⟩
  have hfix : lowStr S = S := symptoms_low_fixed S hS
  have hocc : occursCI S text = containsSub S (lowStr text) := by
    unfold occursCI
    rw [hfix]
  constructor
  · rw [hocc]
    constructor
    · intro h
      exact List.mem_filter.mpr ⟨hS, h⟩
    · intro h
      exact (List.mem_filter.mp h).2
  · rw [hocc]
    by_cases hc : containsSub S (lowStr text) = true
    · rw [if_pos hc]
      unfold extract_symptoms
      have hcf := @List.count_filter (List Char) _ _
        (fun s => containsSub s (lowStr text)) S symptoms hc
      rw [hcf]
      exact symptoms_count_one S hS
    · rw [if_neg hc]
      apply List.count_eq_zero.mpr
      intro hmem
      exact hc (List.mem_filter.mp hmem).2

theorem cleanDiag_len (c : Str) : (cleanDiag c).length ≤ 200 := by
  unfold cleanDiag
  simp [List.length_take]

/-- C7: diagnosis extraction tries the labels diagnosis, impression,
assessment in that order, returns the cleaned capture of the first label
that matches with no merging across patterns, falls back to the sentinel
when none matches, and its output never exceeds 200 characters. -/
theorem c7_diagnosis (text : Str) :
    (extract_diagnosis text).length ≤ 200 ∧
    (scanFirst (diagCapAt (lit "diagnosis")) text = none →
      scanFirst (diagCapAt (lit "impression")) text = none →
      scanFirst (diagCapAt (lit "assessment")) text = none →
      extract_diagnosis text = lit "No clear diagnosis found") ∧
    (∀ c, scanFirst (diagCapAt (lit "diagnosis")) text = some c →
      extract_diagnosis text = cleanDiag c) ∧
    (∀ c, scanFirst (diagCapAt (lit "diagnosis")) text = none →
      scanFirst (diagCapAt (lit "impression")) text = some c →
      extract_diagnosis text = cleanDiag c) ∧
    (∀ c, scanFirst (diagCapAt (lit "diagnosis")) text = none →
      scanFirst (diagCapAt (lit "impression")) text = none →
      scanFirst (diagCapAt (lit "assessment")) text = some c →
      extract_diagnosis text = cleanDiag c) := by
  refine ⟨?_, ?_, ?_, ?_, ?_⟩
  · unfold extract_diagnosis
    cases h1 : scanFirst (diagCapAt (lit "diagnosis")) text with
    | some c1 => exact cleanDiag_len c1
    | none =>
      cases h2 : scanFirst (diagCapAt (lit "impression")) text with
      | some c2 => exact cleanDiag_len c2
      | none =>
        cases h3 : scanFirst (diagCapAt (lit "assessment")) text with
        | some c3 => exact cleanDiag_len c3
        | none => decide
  · intro h1 h2 h3
    unfold extract_diagnosis
    simp only [h1, h2, h3]
  · intro c h1
    unfold extract_diagnosis
    simp only [h1]
  · intro c h1 h2
    unfold extract_diagnosis
    simp only [h1, h2]
  · intro c h1 h2 h3
    unfold extract_diagnosis
    simp only [h1, h2, h3]

theorem isDigitC_dig : ∀ k < 10, isDigitC (dig k) = true := by decide

theorem isYMDShape_format (y m d : Nat) :
    isYMDShape (formatYMD y m d) = true := by
  have h1 := isDigitC_dig (y / 1000 % 10) (Nat.mod_lt _ (by omega))
  have h2 := isDigitC_dig (y / 100 % 10) (Nat.mod_lt _ (by omega))
  have h3 := isDigitC_dig (y / 10 % 10) (Nat.mod_lt _ (by omega))
  have h4 := isDigitC_dig (y % 10) (Nat.mod_lt _ (by omega))
  have h5 := isDigitC_dig (m / 10 % 10) (Nat.mod_lt _ (by omega))
  have h6 := isDigitC_dig (m % 10) (Nat.mod_lt _ (by omega))
  have h7 := isDigitC_dig (d / 10 % 10) (Nat.mod_lt _ (by omega))
  have h8 := isDigitC_dig (d % 10) (Nat.mod_lt _ (by omega))
  show isYMDShape [dig (y / 1000 % 10), dig (y / 100 % 10), dig (y / 10 % 10),
    dig (y % 10), '-', dig (m / 10 % 10), dig (m % 10), '-',
    dig (d / 10 % 10), dig (d % 10)] = true
  simp [isYMDShape, h1, h2, h3, h4, h5, h6, h7, h8]

/-- C4: date extraction is total and always yields a `YYYY-MM-DD`-shaped
string (given a well-shaped current date): the first date-labelled token,
when it parses as a valid calendar date, is returned in canonical form;
a token failing calendar parsing, or the absence of any match, yields the
current date. -/
theorem c4_date (today text : Str) (h : isYMDShape today = true) :
    isYMDShape (extract_report_date today text) = true ∧
    (scanFirst dateMatchAt text = none →
      extract_report_date today text = today) ∧
    (∀ tok, scanFirst dateMatchAt text = some tok →
      (parse_mdy tok = none → extract_report_date today text = today) ∧
      (∀ m d y, parse_mdy tok = some (m, d, y) →
        extract_report_date today text = formatYMD y m d)) := by
  refine ⟨?_, ?_, ?_⟩
  · unfold extract_report_date
    cases hm : scanFirst dateMatchAt text with
    | none => exact h
    | some tok =>
      show isYMDShape (match parse_mdy tok with
        | some mdy => formatYMD mdy.2.2 mdy.1 mdy.2.1
        | none => today) = true
      cases hp : parse_mdy tok with
      | none => exact h
      | some mdy => exact isYMDShape_format mdy.2.2 mdy.1 mdy.2.1
  · intro hm
    unfold extract_report_date
    simp only [hm]
  · intro tok htok
    constructor
    · intro hp
      unfold extract_report_date
      simp only [htok, hp]
    · intro m d y hp
      unfold extract_report_date
      simp only [htok, hp]

set_option maxRecDepth 10000 in
theorem c4_date_witness :
    isYMDShape (extract_report_date (lit "2025-07-26")
      (lit "Date: 01/15/2024")) = true :=
  (c4_date (lit "2025-07-26") (lit "Date: 01/15/2024") (by decide)).1

set_option maxRecDepth 10000 in
theorem meds_low_fixed : ∀ m ∈ common_meds, lowStr m = m := by decide

theorem dedupApp_shape (caps : List Str) : ∀ acc : List Str,
    ∃ bs, dedupApp acc caps = acc ++ bs ∧ bs.Nodup ∧
      ∀ b ∈ bs, b ∈ caps.map lowStr ∧ b ∉ acc := by
  induction caps with
  | nil =>
    intro acc
    exact ⟨[], by simp [dedupApp], by simp, by simp⟩
  | cons c cs ih =>
    intro acc
    by_cases hmem : lowStr c ∈ acc
    · obtain ⟨bs, h1, h2, h3⟩ := ih acc
      refine ⟨bs, ?_, h2, ?_⟩
      · unfold dedupApp
        rw [if_pos hmem]
        exact h1
      · intro b hb
        obtain ⟨hb1, hb2⟩ := h3 b hb
        exact ⟨by simp only [List.map_cons, List.mem_cons]; exact Or.inr hb1, hb2⟩
    · obtain ⟨bs, h1, h2, h3⟩ := ih (acc ++ [lowStr c])
      refine ⟨lowStr c :: bs, ?_, ?_, ?_⟩
      · unfold dedupApp
        rw [if_neg hmem, h1]
        simp
      · refine List.nodup_cons.mpr ⟨?_, h2⟩
        intro hin
        have := (h3 _ hin).2
        simp at this
      · intro b hb
        rcases List.mem_cons.mp hb with hb | hb
        · subst hb
          exact ⟨by simp, hmem⟩
        · obtain ⟨hb1, hb2⟩ := h3 b hb
          refine ⟨by simp only [List.map_cons, List.mem_cons]; exact Or.inr hb1, ?_⟩
          intro hacc
          exact hb2 (by simp [hacc])

theorem dedupApp_acc_subset (caps acc : List Str) :
    ∀ x ∈ acc, x ∈ dedupApp acc caps := by
  obtain ⟨bs, h1, _, _⟩ := dedupApp_shape caps acc
  intro x hx
  rw [h1]
  exact List.mem_append_left _ hx

theorem dedupApp_mem (caps : List Str) :
    ∀ (acc : List Str) (c : Str), c ∈ caps → lowStr c ∈ dedupApp acc caps := by
  induction caps with
  | nil => simp
  | cons d ds ih =>
    intro acc c hc
    unfold dedupApp
    by_cases hmem : lowStr d ∈ acc
    · rw [if_pos hmem]
      rcases List.mem_cons.mp hc with hc | hc
      · subst hc
        exact dedupApp_acc_subset ds acc _ hmem
      · exact ih acc c hc
    · rw [if_neg hmem]
      rcases List.mem_cons.mp hc with hc | hc
      · subst hc
        exact dedupApp_acc_subset ds _ _ (by simp)
      · exact ih _ c hc

/-- C6: medication extraction runs the vocabulary containment pass and
then the dosage-pattern pass: every vocabulary entry occurring
case-insensitively in the text is in the output, every dosage capture
contributes its lower-casing to the output, and the output is exactly the
vocabulary hits followed by the deduplicated lower-cased captures not
already present. -/
theorem c6_medications (text : Str) :
    (∀ m ∈ common_meds, occursCI m text = true →
      m ∈ extract_medications text) ∧
    (∀ c ∈ mgCaptures text, lowStr c ∈ extract_medications text) ∧
    ∃ bs, extract_medications text =
        common_meds.filter (fun m => containsSub m (lowStr text)) ++ bs ∧
      bs.Nodup ∧
      ∀ b ∈ bs, b ∈ (mgCaptures text).map lowStr ∧
        b ∉ common_meds.filter (fun m => containsSub m (lowStr text)) := by
  refine ⟨?_, ?_, ?_⟩
  · intro m hm hocc
    have hfix : lowStr m = m := meds_low_fixed m hm
    have hsub : containsSub m (lowStr text) = true := by
      unfold occursCI at hocc
      rw [hfix] at hocc
      exact hocc
    unfold extract_medications
    exact dedupApp_acc_subset _ _ m (List.mem_filter.mpr ⟨hm, hsub⟩)
  · intro c hc
    unfold extract_medications
    exact dedupApp_mem _ _ c hc
  · unfold extract_medications
    obtain ⟨bs, h1, h2, h3⟩ :=
      dedupApp_shape (mgCaptures text)
        (common_meds.filter (fun m => containsSub m (lowStr text)))
    exact ⟨bs, h1, h2, h3⟩

/-- C9: the generated summary is the pipe-join of segments in fixed
order: patient, date and type always; then the diagnosis segment exactly
when the diagnosis is not the sentinel; then the first three symptoms
when non-empty; then the first three medications when non-empty; then the
first two lab key=value pairs when non-empty. -/
theorem c9_summary (r : MedicalReport) :
    generate_summary r =
      joinSep (lit " | ")
        ([lit "Patient: " ++ r.patient_id, lit "Date: " ++ r.report_date,
          lit "Type: " ++ r.report_type] ++
         (if r.diagnosis ≠ lit "No clear diagnosis found" then
            [lit "Diagnosis: " ++ r.diagnosis] else []) ++
         (if r.symptoms ≠ [] then
            [lit "Symptoms: " ++ joinSep (lit ", ") (r.symptoms.take 3)]
          else []) ++
         (if r.medications ≠ [] then
            [lit "Medications: " ++ joinSep (lit ", ") (r.medications.take 3)]
          else []) ++
         (if r.lab_values ≠ [] then
            [lit "Labs: " ++ joinSep (lit ", ")
              ((r.lab_values.take 2).map (fun p => p.1 ++ '=' :: p.2))]
          else [])) := by
  unfold generate_summary
  by_cases h1 : r.diagnosis ≠ lit "No clear diagnosis found" <;>
    by_cases h2 : r.symptoms ≠ [] <;>
      by_cases h3 : r.medications ≠ [] <;>
        by_cases h4 : r.lab_values ≠ [] <;>
          simp [h1, h2, h3, h4]

theorem strLe_total (a : Str) : ∀ b : Str, strLe a b = true ∨ strLe b a = true := by
  induction a with
  | nil => intro b; left; rfl
  | cons x xs ih =>
    intro b
    cases b with
    | nil => right; rfl
    | cons y ys =>
      unfold strLe
      by_cases h1 : x.toNat < y.toNat
      · left
        rw [if_pos h1]
      · by_cases h2 : y.toNat < x.toNat
        · right
          rw [if_pos h2]
        · rw [if_neg h1, if_neg h2, if_neg h2, if_neg h1]
          exact ih ys

theorem strLe_cons_le {x y : Char} {xs ys : Str}
    (h : strLe (x :: xs) (y :: ys) = true) : x.toNat ≤ y.toNat := by
  by_contra hlt
  unfold strLe at h
  rw [if_neg (by omega), if_pos (by omega)] at h
  cases h

theorem strLe_cons_of_eq {x y : Char} (xs ys : Str) (heq : x.toNat = y.toNat) :
    strLe (x :: xs) (y :: ys) = strLe xs ys := by
  show (if x.toNat < y.toNat then true
    else if y.toNat < x.toNat then false else strLe xs ys) = strLe xs ys
  rw [if_neg (by omega), if_neg (by omega)]

theorem strLe_trans (a : Str) :
    ∀ b c : Str, strLe a b = true → strLe b c = true → strLe a c = true := by
  induction a with
  | nil => intro b c _ _; rfl
  | cons x xs ih =>
    intro b c hab hbc
    cases b with
    | nil => cases hab
    | cons y ys =>
      cases c with
      | nil => cases hbc
      | cons z zs =>
        have hxy := strLe_cons_le hab
        have hyz := strLe_cons_le hbc
        by_cases hxz : x.toNat < z.toNat
        · unfold strLe
          rw [if_pos hxz]
        · have hx_eq_y : x.toNat = y.toNat := by omega
          have hy_eq_z : y.toNat = z.toNat := by omega
          have hx_eq_z : x.toNat = z.toNat := by omega
          rw [strLe_cons_of_eq xs zs hx_eq_z]
          rw [strLe_cons_of_eq xs ys hx_eq_y] at hab
          rw [strLe_cons_of_eq ys zs hy_eq_z] at hbc
          exact ih ys zs hab hbc

theorem mapMO_filterMap {α β : Type} (f : α → Option β) :
    ∀ l : List α, (∀ x ∈ l, (f x).isSome = true) →
      mapMO f l = some (l.filterMap f) := by
  intro l
  induction l with
  | nil => intro _; rfl
  | cons x xs ih =>
    intro h
    obtain ⟨y, hy⟩ := Option.isSome_iff_exists.mp (h x (by simp))
    unfold mapMO
    rw [hy, ih (fun a ha => h a (by simp [ha]))]
    simp [List.filterMap_cons, hy]

theorem decodeRow_date (row : Row) (dict : RepDict)
    (h : decodeRow row = some dict) : dict.report_date = row.report_date := by
  unfold decodeRow at h
  cases h1 : decodeListField row.symptoms with
  | none => rw [h1] at h; cases h
  | some sy =>
    rw [h1] at h
    cases h2 : decodeListField row.medications with
    | none => rw [h2] at h; cases h
    | some me =>
      rw [h2] at h
      cases h3 : decodeMapField row.lab_values with
      | none => rw [h3] at h; cases h
      | some la =>
        rw [h3] at h
        cases h
        rfl

theorem decodeListField_enc (l : List Str) :
    decodeListField (encodeStrList l) = some l := by
  unfold decodeListField
  rw [if_neg (encodeStrList_ne_nil l)]
  exact decodeStrList_enc l

theorem decodeMapField_enc (m : List (Str × Str)) :
    decodeMapField (encodeStrMap m) = some m := by
  unfold decodeMapField
  rw [if_neg (encodeStrMap_ne_nil m)]
  exact decodeStrMap_enc m

theorem decodeRow_enc (i : Nat) (r : MedicalReport) :
    decodeRow (mkRowOf i r) = some (mkDictOf i r) := by
  unfold decodeRow mkRowOf mkDictOf
  simp [decodeListField_enc, decodeMapField_enc]

theorem insertionSort_singleton {α : Type} (r : α → α → Prop)
    [DecidableRel r] (x : α) : List.insertionSort r [x] = [x] := rfl

theorem mapMO_singleton {α β : Type} (f : α → Option β) (x : α) :
    mapMO f [x] = (f x).map (fun y => [y]) := by
  cases hfx : f x <;> simp [mapMO, hfx]

/-- C8: fetch-by-patient returns, date-descending, exactly the decoded
stored rows whose patient id equals the argument; and inserting one
record into an empty store then fetching by its patient id returns
exactly that record with its sequence/mapping fields decoded back to the
original values. -/
theorem c8_get_patient_reports (s : Store) (pid : Str)
    (H : ∀ row ∈ s.rows, (decodeRow row).isSome = true) :
    (∃ l, get_patient_reports s pid = some l ∧
      List.Perm l
        ((s.rows.filter (fun row => row.patient_id == pid)).filterMap decodeRow) ∧
      List.Pairwise
        (fun a b : RepDict => strLe b.report_date a.report_date = true) l) ∧
    (∀ r : MedicalReport,
      get_patient_reports (save_report emptyStore r).1 r.patient_id =
        some [mkDictOf 1 r]) := by
  constructor
  · haveI : IsTotal Row dateDesc := ⟨fun a b => by
      unfold dateDesc
      rcases strLe_total b.report_date a.report_date with h | h
      · exact Or.inl h
      · exact Or.inr h⟩
    haveI : IsTrans Row dateDesc := ⟨fun a b c hab hbc =>
      strLe_trans c.report_date b.report_date a.report_date hbc hab⟩
    have hperm := List.perm_insertionSort dateDesc
      (s.rows.filter (fun row => row.patient_id == pid))
    have Hsorted : ∀ row ∈ List.insertionSort dateDesc
        (s.rows.filter (fun row => row.patient_id == pid)),
        (decodeRow row).isSome = true := by
      intro row hrow
      exact H row (List.mem_filter.mp (hperm.mem_iff.mp hrow)).1
    refine ⟨_, mapMO_filterMap decodeRow _ Hsorted, ?_, ?_⟩
    · exact List.Perm.filterMap decodeRow hperm
    · have hsorted := List.sorted_insertionSort dateDesc
        (s.rows.filter (fun row => row.patient_id == pid))
      refine List.pairwise_filterMap.mpr (hsorted.imp ?_)
      intro a b hab c hc d hd
      rw [decodeRow_date a c hc, decodeRow_date b d hd]
      exact hab
  · intro r
    unfold get_patient_reports save_report emptyStore
    simp only [List.nil_append, List.length_nil]
    rw [show (List.filter (fun row => row.patient_id == r.patient_id)
        [mkRowOf (0 + 1) r]) = [mkRowOf (0 + 1) r] from by simp [mkRowOf]]
    rw [insertionSort_singleton, mapMO_singleton]
    show (decodeRow (mkRowOf 1 r)).map (fun y => [y]) = some [mkDictOf 1 r]
    rw [decodeRow_enc 1 r]
    rfl

set_option maxRecDepth 100000 in
theorem c8_get_patient_reports_witness :
    (∀ row ∈ (save_report emptyStore (⟨lit "P1", lit "2024-01-15",
        lit "General", lit "flu", [lit "fever"], [], [], lit "s",
        lit "t"⟩ : MedicalReport)).1.rows, (decodeRow row).isSome = true) ∧
    get_patient_reports (save_report emptyStore (⟨lit "P1",
        lit "2024-01-15", lit "General", lit "flu", [lit "fever"], [], [],
        lit "s", lit "t"⟩ : MedicalReport)).1 (lit "P1") =
      some [mkDictOf 1 (⟨lit "P1", lit "2024-01-15", lit "General",
        lit "flu", [lit "fever"], [], [], lit "s", lit "t"⟩ :
        MedicalReport)] := by
  refine ⟨by decide, ?_⟩
  exact (c8_get_patient_reports
    (save_report emptyStore (⟨lit "P1", lit "2024-01-15", lit "General",
      lit "flu", [lit "fever"], [], [], lit "s", lit "t"⟩ : MedicalReport)).1
    (lit "P1") (by decide)).2
    (⟨lit "P1", lit "2024-01-15", lit "General", lit "flu", [lit "fever"],
      [], [], lit "s", lit "t"⟩ : MedicalReport)

theorem likeM_allpct (t : Str) : likeM ['%'] t = true := by
  induction t with
  | nil => rfl
  | cons c cs ih =>
    show (suffixes (c :: cs)).any (fun s2 => likeM [] s2) = true
    rw [show suffixes (c :: cs) = (c :: cs) :: suffixes cs from rfl]
    rw [List.any_cons]
    have hrest : (suffixes cs).any (fun s2 => likeM [] s2) = true := ih
    rw [hrest]
    simp

theorem noWild_cons {c : Char} {cs : Str} (h : noWild (c :: cs) = true) :
    ¬ c = '%' ∧ ¬ c = '_' ∧ noWild cs = true := by
  unfold noWild at h ⊢
  rw [List.all_cons] at h
  simp only [Bool.and_eq_true] at h
  refine ⟨?_, ?_, h.2⟩
  · have := h.1
    simp at this
    exact this.1
  · have := h.1
    simp at this
    exact this.2

theorem likeM_trailing (q : Str) (hw : noWild q = true) :
    ∀ t, likeM (q ++ ['%']) t = startsW (lowStr q) (lowStr t) := by
  induction q with
  | nil =>
    intro t
    rw [List.nil_append, likeM_allpct]
    rfl
  | cons c cs ih =>
    obtain ⟨hc1, hc2, hw'⟩ := noWild_cons hw
    intro t
    cases t with
    | nil =>
      show likeM (c :: (cs ++ ['%'])) [] = false
      conv_lhs => rw [likeM]
      rw [if_neg hc1, if_neg hc2]
    | cons b bs =>
      have hstep : likeM (c :: (cs ++ ['%'])) (b :: bs) =
          ((lowC c == lowC b) && likeM (cs ++ ['%']) bs) := by
        conv_lhs => rw [likeM]
        rw [if_neg hc1, if_neg hc2]
      show likeM (c :: (cs ++ ['%'])) (b :: bs) = _
      rw [hstep, ih hw' bs]
      rfl

theorem containsSub_suffixes (n : Str) :
    ∀ h : Str, containsSub n h = (suffixes h).any (fun s => startsW n s) := by
  intro h
  induction h with
  | nil => simp [containsSub, suffixes]
  | cons c cs ih =>
    show (startsW n (c :: cs) || containsSub n cs) =
      (suffixes (c :: cs)).any (fun s => startsW n s)
    rw [show suffixes (c :: cs) = (c :: cs) :: suffixes cs from rfl,
      List.any_cons, ih]

theorem suffixes_map (f : Char → Char) :
    ∀ t : Str, suffixes (t.map f) = (suffixes t).map (List.map f) := by
  intro t
  induction t with
  | nil => rfl
  | cons c cs ih =>
    show suffixes (f c :: cs.map f) = _
    rw [show suffixes (f c :: cs.map f) =
      (f c :: cs.map f) :: suffixes (cs.map f) from rfl, ih]
    rfl

theorem likeM_pat (q : Str) (hw : noWild q = true) (t : Str) :
    likeM (sqlLikePat q) t = occursCI q t := by
  have hL : likeM (sqlLikePat q) t =
      (suffixes t).any (fun s2 => startsW (lowStr q) (lowStr s2)) := by
    rw [show sqlLikePat q = '%' :: (q ++ ['%']) from rfl]
    rw [show likeM ('%' :: (q ++ ['%'])) t =
      (suffixes t).any (fun s2 => likeM (q ++ ['%']) s2) from rfl]
    have hfun : (fun s2 => likeM (q ++ ['%']) s2) =
        (fun s2 => startsW (lowStr q) (lowStr s2)) :=
      funext (likeM_trailing q hw)
    rw [hfun]
  have hR : occursCI q t =
      (suffixes t).any (fun s2 => startsW (lowStr q) (lowStr s2)) := by
    unfold occursCI
    rw [containsSub_suffixes]
    show (suffixes (lowStr t)).any (fun s => startsW (lowStr q) s) = _
    unfold lowStr
    rw [suffixes_map, List.any_map]
    rfl
  rw [hL, hR]

set_option maxRecDepth 100000 in
/-- C1 counterexample: SQLite LIKE is case-insensitive on ASCII, so a
keyword differing from the stored text only in letter case still matches:
the store holds one row whose raw text and diagnosis contain "Bronchitis"
but not "bronchitis" as a case-sensitive substring, yet searching for
"bronchitis" returns that row instead of the empty result the claim
predicts. -/
theorem c1_search_counterexample :
    search_reports (⟨[⟨1, lit "P1", lit "2024-01-15", lit "General",
        lit "Bronchitis follow-up", lit "[]", lit "[]", lit "\x7b\x7d",
        lit "sum", lit "Patient has Bronchitis"⟩]⟩ : Store)
      (lit "bronchitis") =
      [⟨1, lit "P1", lit "2024-01-15", lit "sum"⟩] ∧
    containsSub (lit "bronchitis") (lit "Patient has Bronchitis") = false ∧
    containsSub (lit "bronchitis") (lit "Bronchitis follow-up") = false := by
  refine ⟨by decide, by decide, by decide⟩

/-- C1 amended: for a keyword without LIKE wildcard characters,
keyword search returns exactly the abbreviated records (id, patient, date,
summary) of the stored rows in which the keyword occurs case-insensitively
(ASCII folding, the SQLite LIKE default) as a substring of the raw text or
of the diagnosis, ordered by report date descending. -/
theorem c1_search_amended (s : Store) (q : Str) (hw : noWild q = true) :
    List.Perm (search_reports s q)
      ((s.rows.filter (fun row =>
          occursCI q row.raw_text || occursCI q row.diagnosis)).map
        (fun row => (⟨row.id, row.patient_id, row.report_date,
          row.summary⟩ : SearchHit))) ∧
    List.Pairwise (fun a b : SearchHit => strLe b.date a.date = true)
      (search_reports s q) := by
  have hpred : (fun row : Row => likeM (sqlLikePat q) row.raw_text ||
      likeM (sqlLikePat q) row.diagnosis) =
      (fun row : Row => occursCI q row.raw_text || occursCI q row.diagnosis) :=
    funext fun row => by rw [likeM_pat q hw, likeM_pat q hw]
  haveI : IsTotal Row dateDesc := ⟨fun a b => by
    unfold dateDesc
    rcases strLe_total b.report_date a.report_date with h | h
    · exact Or.inl h
    · exact Or.inr h⟩
  haveI : IsTrans Row dateDesc := ⟨fun a b c hab hbc =>
    strLe_trans c.report_date b.report_date a.report_date hbc hab⟩
  constructor
  · unfold search_reports
    rw [hpred]
    exact List.Perm.map _ (List.perm_insertionSort dateDesc _)
  · unfold search_reports
    have hsorted := List.sorted_insertionSort dateDesc
      (s.rows.filter (fun row => likeM (sqlLikePat q) row.raw_text ||
        likeM (sqlLikePat q) row.diagnosis))
    refine List.pairwise_map.mpr (hsorted.imp ?_)
    intro a b hab
    exact hab

set_option maxRecDepth 100000 in
theorem c1_search_amended_witness :
    noWild (lit "bronchitis") = true ∧
    List.Perm (search_reports (⟨[⟨1, lit "P1", lit "2024-01-15",
        lit "General", lit "flu", lit "[]", lit "[]", lit "\x7b\x7d",
        lit "sum", lit "Patient has Bronchitis"⟩]⟩ : Store)
        (lit "bronchitis"))
      (((⟨[⟨1, lit "P1", lit "2024-01-15", lit "General", lit "flu",
          lit "[]", lit "[]", lit "\x7b\x7d", lit "sum",
          lit "Patient has Bronchitis"⟩]⟩ : Store).rows.filter
        (fun row => occursCI (lit "bronchitis") row.raw_text ||
          occursCI (lit "bronchitis") row.diagnosis)).map
        (fun row => (⟨row.id, row.patient_id, row.report_date,
          row.summary⟩ : SearchHit))) :=
  ⟨by decide, (c1_search_amended (⟨[⟨1, lit "P1", lit "2024-01-15",
      lit "General", lit "flu", lit "[]", lit "[]", lit "\x7b\x7d",
      lit "sum", lit "Patient has Bronchitis"⟩]⟩ : Store)
    (lit "bronchitis") (by decide)).1⟩
